import Mathlib

set_option maxRecDepth 100000

/-!
Verification development for cue_splitter.py.

The Python source is shallowly embedded over `List Char` (text) and `List Nat`
(bytes).  Filesystem-dependent operations take an explicit environment record
whose fields model the operating-system primitives the script calls
(reading and decoding a file into lines, path resolution, directory listing,
existence tests).  Pure routines (regex line matchers, the name sanitizer,
the byte-level text decoders) are translated directly.
-/

namespace CueSplit

/-! ## Character classes

Python regex `\s` (for `str` patterns) and `str.isspace`/`str.strip` use the
Unicode whitespace set; `isPySpace` lists that set.  Python regex `\d` is the
Unicode Nd category, restricted here to the ASCII digits.  The regex literals
in the source are ASCII, so `re.IGNORECASE` matching on them is modelled by
ASCII case folding (`Char.toLower` lowers exactly the ASCII uppercase range).
-/

def isPySpace (c : Char) : Bool :=
  let n := c.toNat
  (9 ≤ n && n ≤ 13) || n == 32 || (28 ≤ n && n ≤ 31) || n == 0x85 || n == 0xA0 ||
    n == 0x1680 || (0x2000 ≤ n && n ≤ 0x200A) || n == 0x2028 || n == 0x2029 ||
    n == 0x202F || n == 0x205F || n == 0x3000

/-- Model of Python str.strip(): remove leading and trailing whitespace. -/
def pyStrip (l : List Char) : List Char :=
  ((l.dropWhile isPySpace).reverse.dropWhile isPySpace).reverse

/-- Case-insensitive character comparison for ASCII pattern literals. -/
def charIEq (p c : Char) : Bool :=
  p.toLower == c.toLower

/-- Match a literal pattern case-insensitively; return the remaining input. -/
def matchLit : List Char → List Char → Option (List Char)
  | [], rest => some rest
  | _ :: _, [] => none
  | p :: ps, c :: cs => if charIEq p c then matchLit ps cs else none

/-- Model of regex fragment one-or-more whitespace: requires at least one
whitespace character, consumes the maximal run (the source patterns always
follow it by a non-whitespace token, so maximal munch is exact). -/
def wsPlus : List Char → Option (List Char)
  | [] => none
  | c :: cs => if isPySpace c then some ((c :: cs).dropWhile isPySpace) else none

/-- Model of regex fragment one-or-more digits, analogous to wsPlus. -/
def digitsPlus : List Char → Option (List Char)
  | [] => none
  | c :: cs => if c.isDigit then some ((c :: cs).dropWhile Char.isDigit) else none

/-- Model of the quoted capture fragment: an opening quote, one or more
non-quote characters (the capture), and a closing quote. -/
def quotedCapture : List Char → Option (List Char × List Char)
  | '"' :: rest =>
    match rest.takeWhile (· != '"'), rest.dropWhile (· != '"') with
    | [], _ => none
    | c :: cs, '"' :: r2 => some (c :: cs, r2)
    | _ :: _, _ => none
  | _ => none

/-- Model of TRACK_RE from the source. -/
def trackMatch (l : List Char) : Bool :=
  match matchLit ("TRACK".toList) (l.dropWhile isPySpace) with
  | none => false
  | some r1 =>
    match wsPlus r1 with
    | none => false
    | some r2 =>
      match digitsPlus r2 with
      | none => false
      | some r3 =>
        match wsPlus r3 with
        | none => false
        | some r4 =>
          match matchLit ("AUDIO".toList) r4 with
          | none => false
          | some r5 => r5.all isPySpace

/-- Model of a line matcher of the shape KEYWORD followed by a quoted capture,
shared by PERFORMER_RE and TITLE_RE; returns the capture group. -/
def keywordQuoted (kw : List Char) (l : List Char) : Option (List Char) :=
  match matchLit kw (l.dropWhile isPySpace) with
  | none => none
  | some r1 =>
    match wsPlus r1 with
    | none => none
    | some r2 =>
      match quotedCapture r2 with
      | none => none
      | some (cap, r3) => if r3.all isPySpace then some cap else none

/-- Model of PERFORMER_RE: returns the quoted capture group. -/
def performerCapture (l : List Char) : Option (List Char) :=
  keywordQuoted ("PERFORMER".toList) l

/-- Model of TITLE_RE: returns the quoted capture group. -/
def titleCapture (l : List Char) : Option (List Char) :=
  keywordQuoted ("TITLE".toList) l

/-- Model of FILE_RE: returns the two capture groups, the quoted file name
and the trailing type token. -/
def fileCapture (l : List Char) : Option (List Char × List Char) :=
  match matchLit ("FILE".toList) (l.dropWhile isPySpace) with
  | none => none
  | some r1 =>
    match wsPlus r1 with
    | none => none
    | some r2 =>
      match quotedCapture r2 with
      | none => none
      | some (cap, r3) =>
        match wsPlus r3 with
        | none => none
        | some r4 =>
          match r4.takeWhile (fun c => !(isPySpace c)), r4.dropWhile (fun c => !(isPySpace c)) with
          | [], _ => none
          | t :: ts, r5 => if r5.all isPySpace then some (cap, t :: ts) else none

/-! ## Name sanitizer -/

/-- Transliteration table LATIN_MAP from the source, entries for code points
0xC0 and up (Latin-1 Supplement then Latin Extended-A). -/
def LATIN_MAP : List (Option String) := [
  -- latin-1
  some "A", some "A", some "A", some "A", some "A", some "A",
  some "AE",
  some "C",
  some "E", some "E", some "E", some "E",
  some "I", some "I", some "I", some "I",
  some "DH",
  some "N",
  some "O", some "O", some "O", some "O", some "O",
  none,
  some "O",
  some "U", some "U", some "U", some "U",
  some "Y",
  some "th",
  some "ss",
  some "a", some "a", some "a", some "a", some "a", some "a",
  some "ae",
  some "c",
  some "e", some "e", some "e", some "e",
  some "i", some "i", some "i", some "i",
  some "dh",
  some "n",
  some "o", some "o", some "o", some "o", some "o",
  none,
  some "o",
  some "u", some "u", some "u", some "u",
  some "y",
  some "th",
  some "y",
  -- latin extended-A
  some "A", some "a", some "A", some "a", some "A", some "a",
  some "C", some "c", some "C", some "c", some "C", some "c", some "C", some "c",
  some "D", some "d", some "D", some "d",
  some "E", some "e", some "E", some "e", some "E", some "e", some "E", some "e", some "E", some "e",
  some "G", some "g", some "G", some "g", some "G", some "g", some "G", some "g",
  some "H", some "h", some "H", some "h",
  some "I", some "i", some "I", some "i", some "I", some "i", some "I", some "i", some "I", some "i",
  some "IJ", some "ij",
  some "J", some "j",
  some "K", some "k", some "k",
  some "L", some "l", some "L", some "l", some "L", some "l", some "L", some "l", some "L", some "l",
  some "N", some "n", some "N", some "n", some "N", some "n", some "n", some "N", some "n",
  some "O", some "o", some "O", some "o", some "O", some "o",
  some "OE", some "oe",
  some "R", some "r", some "R", some "r", some "R", some "r",
  some "S", some "s", some "S", some "s", some "S", some "s", some "S", some "s",
  some "T", some "t", some "T", some "t", some "T", some "t",
  some "U", some "u", some "U", some "u", some "U", some "u", some "U", some "u", some "U", some "u", some "U", some "u",
  some "W", some "w",
  some "Y", some "y", some "Y",
  some "Z", some "z", some "Z", some "z", some "Z", some "z",
  some "s"]

def LATIN_MAP_BEGIN : Nat := 0xC0

def LATIN_MAP_END : Nat := LATIN_MAP_BEGIN + LATIN_MAP.length

/-- Table lookup, as a list of characters. -/
def latinLookup (i : Nat) : Option (List Char) :=
  (LATIN_MAP.getD i none).map String.toList

/-- Condition from the source for recording a guessed index:
the expansion has at least two characters and its second is uppercase. -/
def sndIsUpper : List Char → Bool
  | _ :: b :: _ => b.isUpper
  | _ => false

/-- Characters passed through unchanged by sanitize_name, in source order:
digits, space, uppercase ASCII, lowercase ASCII. -/
def isSafeChar (c : Char) : Bool :=
  ('0' ≤ c && c ≤ '9') || c == ' ' || ('A' ≤ c && c ≤ 'Z') || ('a' ≤ c && c ≤ 'z')

/-- One iteration of the character-emission loop of sanitize_name.  State is
the pair of emitted characters and recorded guessed indexes. -/
def emitStep (st : List Char × List Nat) (ch : Char) : List Char × List Nat :=
  if isSafeChar ch then (st.1 ++ [ch], st.2)
  else if ch == '\t' then (st.1 ++ [' '], st.2)
  else if LATIN_MAP_BEGIN ≤ ch.toNat && ch.toNat < LATIN_MAP_END then
    match latinLookup (ch.toNat - LATIN_MAP_BEGIN) with
    | some m =>
      if sndIsUpper m then (st.1 ++ m, st.2 ++ [(st.1 ++ m).length - 1])
      else (st.1 ++ m, st.2)
    | none => st
  else st

/-- One iteration of the capitalization post-pass.  The source reads the
character at idx + 1 only under the guard idx != len - 1; every recorded
index is in range (proved below), so the getD defaults are never consulted. -/
def patchStep (res : List Char) (idx : Nat) : List Char :=
  if idx != res.length - 1 && !((res.getD (idx + 1) 'A').isUpper) then
    res.set idx ((res.getD idx 'A').toLower)
  else res

/-- Capitalization post-pass over the recorded guessed indexes. -/
def applyGuessed (gs : List Nat) (res : List Char) : List Char :=
  gs.foldl patchStep res

/-- Model of sanitize_name from the source. -/
def sanitize_name (value : List Char) : List Char :=
  if value = "( )".toList then "Untitled".toList
  else
    let p := value.foldl emitStep ([], [])
    applyGuessed p.2 p.1


/-! ## Filesystem environment

Paths are modelled by their string form (a Path object and str(path) are
identified).  The environment supplies the operating-system and pathlib
primitives the script calls; the cue parsing functions and the decision
function are parametric in it. -/

/-- One entry of a directory listing: the final path component and whether
the entry is a regular file. -/
structure DirEntry where
  name : List Char
  isFile : Bool

/-- Environment record. readLines models read_text_guessing followed by
splitlines, returning none when reading raises; pathOfString models the
Path constructor's normalization of a name string; resolveJoin models
str((parent / ref).resolve()); pathExists models Path.exists; iterdir
models Path.iterdir, returning none when listing raises. -/
structure Env where
  readLines : List Char → Option (List (List Char))
  pathOfString : List Char → List Char
  isAbsolute : List Char → Bool
  parentOf : List Char → List Char
  resolveJoin : List Char → List Char → List Char
  pathExists : List Char → Bool
  iterdir : List Char → Option (List DirEntry)

/-- Reference computed from one FILE capture group: strip, build the path,
and resolve it against the cue directory when it is not absolute. -/
def resolveRef (env : Env) (parentDir : List Char) (fname : List Char) : List Char :=
  let f := env.pathOfString (pyStrip fname)
  if !(env.isAbsolute f) then env.resolveJoin parentDir f else f

/-- Line loop of parse_cue_files: seen is the dedup set, refs the output
list in first-seen order. -/
def pcfLoop (env : Env) (parentDir : List Char) :
    List (List Char) → List (List Char) → List (List Char) → List (List Char)
  | [], _, refs => refs
  | line :: rest, seen, refs =>
    match fileCapture line with
    | none => pcfLoop env parentDir rest seen refs
    | some (fname, _) =>
      let ref := resolveRef env parentDir fname
      if ref ∈ seen then pcfLoop env parentDir rest seen refs
      else pcfLoop env parentDir rest (ref :: seen) (refs ++ [ref])

/-- Model of parse_cue_files from the source. -/
def parse_cue_files (env : Env) (cue : List Char) : List (List Char) :=
  match env.readLines cue with
  | none => []
  | some lines => pcfLoop env (env.parentOf cue) lines [] []

/-- Line loop of parse_cue_artist_album: break at the first TRACK line,
capture the first PERFORMER while artist is unset and the first TITLE while
album is unset. -/
def paaLoop :
    List (List Char) → Option (List Char) → Option (List Char) →
    Option (List Char) × Option (List Char)
  | [], artist, album => (artist, album)
  | line :: rest, artist, album =>
    if trackMatch line then (artist, album)
    else
      match artist, performerCapture line with
      | none, some g => paaLoop rest (some (pyStrip g)) album
      | _, _ =>
        match album, titleCapture line with
        | none, some g => paaLoop rest artist (some (pyStrip g))
        | _, _ => paaLoop rest artist album

/-- Model of parse_cue_artist_album from the source. -/
def parse_cue_artist_album (env : Env) (cue : List Char) :
    Option (List Char) × Option (List Char) :=
  match env.readLines cue with
  | none => (none, none)
  | some lines => paaLoop lines none none

/-- Model of count_cue_tracks from the source. -/
def count_cue_tracks (env : Env) (cue : List Char) : Nat :=
  match env.readLines cue with
  | none => 0
  | some lines => (lines.filter trackMatch).length

/-- Index of the last dot in a name, if any. -/
def lastDotPos : List Char → Option Nat
  | [] => none
  | c :: cs =>
    match lastDotPos cs with
    | some i => some (i + 1)
    | none => if c == '.' then some 0 else none

/-- Model of pathlib suffix on a final path component: the part from the
last dot, empty when the dot is first, last, or absent. -/
def pySuffix (name : List Char) : List Char :=
  match lastDotPos name with
  | some i => if 0 < i ∧ i < name.length - 1 then name.drop i else []
  | none => []

/-- Membership in AUDIO_EXTS from the source. -/
def isAudioExt (s : List Char) : Bool :=
  s == ".flac".toList || s == ".wav".toList

/-- Model of count_audio_files from the source. -/
def count_audio_files (env : Env) (dir : List Char) : Nat :=
  if !(env.pathExists dir) then 0
  else
    match env.iterdir dir with
    | none => 0
    | some entries =>
      (entries.filter
        (fun e => e.isFile && isAudioExt ((pySuffix e.name).map Char.toLower))).length

/-- Model of find_audio_file from the source. -/
def find_audio_file (env : Env) (refs : List (List Char)) : Option (List Char) :=
  match refs with
  | r :: _ => if env.pathExists r then some r else none
  | [] => none

/-- Model of should_process from the source. -/
def should_process (env : Env) (cue out_dir : List Char) (force : Bool) : Bool × String :=
  let track_count := count_cue_tracks env cue
  if track_count ≤ 1 then (false, "no tracks or only 1 track")
  else
    let refs := parse_cue_files env cue
    if refs.length = 0 then (false, "no audio file referenced")
    else if refs.length > 1 then (false, "multi-file CUE (already split)")
    else
      match find_audio_file env refs with
      | none => (false, "audio file not found")
      | some _ =>
        if force = false then
          let existing_count := count_audio_files env out_dir
          if existing_count = track_count then
            (false, "already processed (" ++ toString existing_count ++ "/" ++
              toString track_count ++ " tracks)")
          else (true, toString track_count ++ " tracks")
        else (true, toString track_count ++ " tracks")

/-! ## Text decoder

Byte sequences are lists of naturals below 256, decoded to lists of code
points.  A codec returns none where the corresponding Python strict decode
raises UnicodeDecodeError.  The multi-byte decoders recurse on a fuel
argument initialised to the byte count, which bounds the number of decoded
code points, so the fuel-exhaustion branches are unreachable. -/

def Codec : Type := List Nat → Option (List Nat)

/-- Strict UTF-8 decoding: rejects overlong forms, surrogates, code points
above 0x10FFFF, truncated sequences and stray continuation bytes. -/
def utf8Go : Nat → List Nat → Option (List Nat)
  | _, [] => some []
  | 0, _ :: _ => none
  | f + 1, b :: bs =>
    if b < 0x80 then (utf8Go f bs).map (b :: ·)
    else if b < 0xC2 then none
    else if b < 0xE0 then
      match bs with
      | b1 :: bs1 =>
        if 0x80 ≤ b1 && b1 < 0xC0 then
          (utf8Go f bs1).map (((b - 0xC0) * 0x40 + (b1 - 0x80)) :: ·)
        else none
      | [] => none
    else if b < 0xF0 then
      match bs with
      | b1 :: b2 :: bs2 =>
        let lo := if b == 0xE0 then 0xA0 else 0x80
        let hi := if b == 0xED then 0x9F else 0xBF
        if lo ≤ b1 && b1 ≤ hi && 0x80 ≤ b2 && b2 < 0xC0 then
          (utf8Go f bs2).map
            (((b - 0xE0) * 0x1000 + (b1 - 0x80) * 0x40 + (b2 - 0x80)) :: ·)
        else none
      | _ => none
    else if b < 0xF5 then
      match bs with
      | b1 :: b2 :: b3 :: bs3 =>
        let lo := if b == 0xF0 then 0x90 else 0x80
        let hi := if b == 0xF4 then 0x8F else 0xBF
        if lo ≤ b1 && b1 ≤ hi && 0x80 ≤ b2 && b2 < 0xC0 && 0x80 ≤ b3 && b3 < 0xC0 then
          (utf8Go f bs3).map
            (((b - 0xF0) * 0x40000 + (b1 - 0x80) * 0x1000 + (b2 - 0x80) * 0x40 +
              (b3 - 0x80)) :: ·)
        else none
      | _ => none
    else none

def utf8Decode : Codec := fun bs => utf8Go bs.length bs

/-- Codec utf-8-sig: utf-8 after stripping a leading UTF-8 byte-order mark. -/
def utf8SigDecode : Codec := fun bs =>
  match bs with
  | 0xEF :: 0xBB :: 0xBF :: rest => utf8Decode rest
  | _ => utf8Decode bs

/-- Strict UTF-16 little-endian decoding with surrogate-pair combination;
odd byte counts and unpaired surrogates are errors. -/
def utf16leGo : Nat → List Nat → Option (List Nat)
  | _, [] => some []
  | 0, _ :: _ => none
  | _ + 1, [_] => none
  | f + 1, b0 :: b1 :: bs =>
    let u := b1 * 256 + b0
    if u < 0xD800 || 0xE000 ≤ u then (utf16leGo f bs).map (u :: ·)
    else if u < 0xDC00 then
      match bs with
      | c0 :: c1 :: bs2 =>
        let v := c1 * 256 + c0
        if 0xDC00 ≤ v && v < 0xE000 then
          (utf16leGo f bs2).map ((0x10000 + (u - 0xD800) * 0x400 + (v - 0xDC00)) :: ·)
        else none
      | _ => none
    else none

def utf16leDecode : Codec := fun bs => utf16leGo bs.length bs

/-- Strict UTF-16 big-endian decoding. -/
def utf16beGo : Nat → List Nat → Option (List Nat)
  | _, [] => some []
  | 0, _ :: _ => none
  | _ + 1, [_] => none
  | f + 1, b0 :: b1 :: bs =>
    let u := b0 * 256 + b1
    if u < 0xD800 || 0xE000 ≤ u then (utf16beGo f bs).map (u :: ·)
    else if u < 0xDC00 then
      match bs with
      | c0 :: c1 :: bs2 =>
        let v := c0 * 256 + c1
        if 0xDC00 ≤ v && v < 0xE000 then
          (utf16beGo f bs2).map ((0x10000 + (u - 0xD800) * 0x400 + (v - 0xDC00)) :: ·)
        else none
      | _ => none
    else none

def utf16beDecode : Codec := fun bs => utf16beGo bs.length bs

/-- Codec utf-16: a byte-order mark selects the order and is consumed;
without one, little-endian (the native order of the target platforms). -/
def utf16Decode : Codec := fun bs =>
  match bs with
  | 0xFF :: 0xFE :: rest => utf16leDecode rest
  | 0xFE :: 0xFF :: rest => utf16beDecode rest
  | _ => utf16leDecode bs

/-- Code points for cp1251 bytes 0x80 and up; byte 0x98 is undefined. -/
def cp1251High : List (Option Nat) := [
  some 0x0402, some 0x0403, some 0x201A, some 0x0453, some 0x201E, some 0x2026,
  some 0x2020, some 0x2021, some 0x20AC, some 0x2030, some 0x0409, some 0x2039,
  some 0x040A, some 0x040C, some 0x040B, some 0x040F,
  some 0x0452, some 0x2018, some 0x2019, some 0x201C, some 0x201D, some 0x2022,
  some 0x2013, some 0x2014, none, some 0x2122, some 0x0459, some 0x203A,
  some 0x045A, some 0x045C, some 0x045B, some 0x045F,
  some 0x00A0, some 0x040E, some 0x045E, some 0x0408, some 0x00A4, some 0x0490,
  some 0x00A6, some 0x00A7, some 0x0401, some 0x00A9, some 0x0404, some 0x00AB,
  some 0x00AC, some 0x00AD, some 0x00AE, some 0x0407,
  some 0x00B0, some 0x00B1, some 0x0406, some 0x0456, some 0x0491, some 0x00B5,
  some 0x00B6, some 0x00B7, some 0x0451, some 0x2116, some 0x0454, some 0x00BB,
  some 0x0458, some 0x0405, some 0x0455, some 0x0457,
  some 0x0410, some 0x0411, some 0x0412, some 0x0413, some 0x0414, some 0x0415,
  some 0x0416, some 0x0417, some 0x0418, some 0x0419, some 0x041A, some 0x041B,
  some 0x041C, some 0x041D, some 0x041E, some 0x041F,
  some 0x0420, some 0x0421, some 0x0422, some 0x0423, some 0x0424, some 0x0425,
  some 0x0426, some 0x0427, some 0x0428, some 0x0429, some 0x042A, some 0x042B,
  some 0x042C, some 0x042D, some 0x042E, some 0x042F,
  some 0x0430, some 0x0431, some 0x0432, some 0x0433, some 0x0434, some 0x0435,
  some 0x0436, some 0x0437, some 0x0438, some 0x0439, some 0x043A, some 0x043B,
  some 0x043C, some 0x043D, some 0x043E, some 0x043F,
  some 0x0440, some 0x0441, some 0x0442, some 0x0443, some 0x0444, some 0x0445,
  some 0x0446, some 0x0447, some 0x0448, some 0x0449, some 0x044A, some 0x044B,
  some 0x044C, some 0x044D, some 0x044E, some 0x044F]

/-- Decode one cp1251 byte. -/
def cp1251Byte (b : Nat) : Option Nat :=
  if b < 0x80 then some b else cp1251High.getD (b - 0x80) none

/-- Strict single-byte decoding through a per-byte map. -/
def decodeEachByte (f : Nat → Option Nat) : List Nat → Option (List Nat)
  | [] => some []
  | b :: bs =>
    match f b, decodeEachByte f bs with
    | some c, some cs => some (c :: cs)
    | _, _ => none

def cp1251Decode : Codec := fun bs => decodeEachByte cp1251Byte bs

/-- Codec latin-1: total, each byte is its own code point. -/
def latin1Decode : Codec := fun bs => some bs

/-- UTF-8 decoding with U+FFFD substituted for offending bytes.  CPython
resynchronises after the maximal valid subpart of an invalid sequence; this
model resynchronises at the next byte, which is immaterial because the
fallback is proved unreachable below. -/
def utf8ReplaceGo : Nat → List Nat → List Nat
  | _, [] => []
  | 0, _ :: _ => []
  | f + 1, b :: bs =>
    if b < 0x80 then b :: utf8ReplaceGo f bs
    else if b < 0xC2 then 0xFFFD :: utf8ReplaceGo f bs
    else if b < 0xE0 then
      match bs with
      | b1 :: bs1 =>
        if 0x80 ≤ b1 && b1 < 0xC0 then
          ((b - 0xC0) * 0x40 + (b1 - 0x80)) :: utf8ReplaceGo f bs1
        else 0xFFFD :: utf8ReplaceGo f bs
      | [] => [0xFFFD]
    else if b < 0xF0 then
      match bs with
      | b1 :: b2 :: bs2 =>
        let lo := if b == 0xE0 then 0xA0 else 0x80
        let hi := if b == 0xED then 0x9F else 0xBF
        if lo ≤ b1 && b1 ≤ hi && 0x80 ≤ b2 && b2 < 0xC0 then
          ((b - 0xE0) * 0x1000 + (b1 - 0x80) * 0x40 + (b2 - 0x80)) :: utf8ReplaceGo f bs2
        else 0xFFFD :: utf8ReplaceGo f bs
      | _ => [0xFFFD]
    else if b < 0xF5 then
      match bs with
      | b1 :: b2 :: b3 :: bs3 =>
        let lo := if b == 0xF0 then 0x90 else 0x80
        let hi := if b == 0xF4 then 0x8F else 0xBF
        if lo ≤ b1 && b1 ≤ hi && 0x80 ≤ b2 && b2 < 0xC0 && 0x80 ≤ b3 && b3 < 0xC0 then
          ((b - 0xF0) * 0x40000 + (b1 - 0x80) * 0x1000 + (b2 - 0x80) * 0x40 +
            (b3 - 0x80)) :: utf8ReplaceGo f bs3
        else 0xFFFD :: utf8ReplaceGo f bs
      | _ => [0xFFFD]
    else 0xFFFD :: utf8ReplaceGo f bs

/-- Lossy fallback of read_text_guessing. -/
def utf8DecodeReplace (bs : List Nat) : List Nat := utf8ReplaceGo bs.length bs

/-- Encodings tried by read_text_guessing, in source order. -/
def codecList : List Codec :=
  [utf8SigDecode, utf16Decode, utf16leDecode, utf16beDecode, cp1251Decode, latin1Decode]

/-- Encoding-trial loop: return the first strict decode that succeeds and
contains no replacement character. -/
def tryCodecs : List Codec → List Nat → Option (List Nat)
  | [], _ => none
  | d :: ds, raw =>
    match d raw with
    | some t => if t.contains 0xFFFD then tryCodecs ds raw else some t
    | none => tryCodecs ds raw

/-- Model of read_text_guessing from the source, at the byte level. -/
def read_text_guessing (raw : List Nat) : List Nat :=
  match tryCodecs codecList raw with
  | some t => t
  | none => utf8DecodeReplace raw


/-! ## Specification-side definitions

These follow the wording of the spec rather than the source, for comparison
against the source-derived functions above. -/

/-- Deduplication by value keeping first occurrences, excluding an initial
seen set; the spec describes the reference list as deduplicated with
first-seen order preserved. -/
def dedupFrom (seen : List (List Char)) : List (List Char) → List (List Char)
  | [] => []
  | x :: xs => if x ∈ seen then dedupFrom seen xs else x :: dedupFrom (x :: seen) xs

/-- References named by the FILE lines in order, resolved, before
deduplication. -/
def cueRefs (env : Env) (parentDir : List Char) (lines : List (List Char)) :
    List (List Char) :=
  (lines.filterMap (fun l => (fileCapture l).map Prod.fst)).map (resolveRef env parentDir)

/-- Split a string on slashes. -/
def splitSlash : List Char → List (List Char)
  | [] => [[]]
  | c :: rest =>
    if c == '/' then [] :: splitSlash rest
    else
      match splitSlash rest with
      | seg :: segs => (c :: seg) :: segs
      | [] => [[c]]

/-- Canonicalization performed by Path.resolve on an absolute POSIX path on
a filesystem without symbolic links: drop empty and dot components, let a
dot-dot component remove the preceding one. -/
def posixResolve (s : List Char) : List Char :=
  let stack := (splitSlash s).foldl
    (fun st p =>
      if p = [] ∨ p = ['.'] then st
      else if p = ['.', '.'] then st.dropLast
      else st ++ [p]) []
  '/' :: (List.intercalate ['/'] stack)


/-! ## Concrete inputs for witnesses and counterexamples -/

/-- Environment over a single cue sheet: every path reads the given lines,
existence tests all answer the given flag, every directory lists the given
entries; paths are resolved by plain concatenation under the fixed cue
directory. -/
def envFrom (lines : Option (List (List Char))) (ex : Bool)
    (entries : Option (List DirEntry)) : Env :=
  { readLines := fun _ => lines
    pathOfString := fun s => s
    isAbsolute := fun s => s.head? == some '/'
    parentOf := fun _ => "/music".toList
    resolveJoin := fun p f => p ++ '/' :: f
    pathExists := fun _ => ex
    iterdir := fun _ => entries }

def cueP : List Char := "/music/album.cue".toList

def outP : List Char := "/out".toList

def lnPerf : List Char := "PERFORMER \"Test Artist\"".toList

def lnTitle : List Char := "TITLE \"Test Album\"".toList

def lnFileA : List Char := "FILE \"a.wav\" WAVE".toList

def lnFileB : List Char := "FILE \"b.wav\" WAVE".toList

def lnTrk1 : List Char := "TRACK 01 AUDIO".toList

def lnTrk2 : List Char := "TRACK 02 AUDIO".toList

def lnPerfOther : List Char := "PERFORMER \"Other\"".toList

def lnFileAbs1 : List Char := "FILE \"/x/../b\" WAVE".toList

def lnFileAbs2 : List Char := "FILE \"/b\" WAVE".toList

def envNoRead : Env := envFrom none false none

def envEmptyCue : Env := envFrom (some []) false none

def envTwoFilesNoTracks : Env := envFrom (some [lnFileA, lnFileB]) false none

def envTwoTracksTwoFiles : Env := envFrom (some [lnTrk1, lnTrk2, lnFileA, lnFileB]) false none

def envTwoTracksNoFile : Env := envFrom (some [lnTrk1, lnTrk2]) false none

def envGood : Env :=
  envFrom (some [lnPerf, lnTitle, lnFileA, lnTrk1, lnTrk2, lnPerfOther]) true (some [])

def envAbsDup : Env := envFrom (some [lnFileAbs1, lnFileAbs2]) false none



/-! ## Helper lemmas on list access -/

theorem getD_append_left {α : Type} (l t : List α) (i : Nat) (d : α)
    (h : i < l.length) : (l ++ t).getD i d = l.getD i d := by
  simp [List.getD_eq_getElem?_getD, List.getElem?_append, h]

theorem getD_append_add {α : Type} (l t : List α) (i : Nat) (d : α) :
    (l ++ t).getD (l.length + i) d = t.getD i d := by
  have h : ¬ (l.length + i < l.length) := by omega
  simp [List.getD_eq_getElem?_getD, List.getElem?_append, h]

theorem getD_set_self {α : Type} (l : List α) (i : Nat) (v d : α)
    (h : i < l.length) : (l.set i v).getD i d = v := by
  simp [List.getD_eq_getElem?_getD, List.getElem?_set, h]

theorem getD_set_ne {α : Type} (l : List α) (i j : Nat) (v d : α)
    (h : i ≠ j) : (l.set i v).getD j d = l.getD j d := by
  simp [List.getD_eq_getElem?_getD, List.getElem?_set, h]

/-! ## Decision engine: early rejections -/

/-- C3: for every cue sheet whose track-marker count is 0 or 1,
should_process returns False with reason "no tracks or only 1 track",
regardless of the output directory, the force flag, the FILE references,
or the state of the filesystem. -/
theorem should_process_rejects_few_tracks (env : Env) (cue out_dir : List Char)
    (force : Bool) (h : count_cue_tracks env cue ≤ 1) :
    should_process env cue out_dir force = (false, "no tracks or only 1 track") := by
  unfold should_process
  simp [h]

/-- Witness for C3 at a concrete environment with an empty cue sheet. -/
theorem should_process_rejects_few_tracks_witness :
    should_process envEmptyCue cueP outP false = (false, "no tracks or only 1 track") :=
  should_process_rejects_few_tracks envEmptyCue cueP outP false (by decide)

/-- C4 counterexample: a cue sheet with two FILE references and no track
markers is rejected with the track-count reason, not the multi-file reason,
so the reference-count rejections do not apply unconditionally. -/
theorem ref_count_rejections_counterexample :
    2 ≤ (parse_cue_files envTwoFilesNoTracks cueP).length ∧
    should_process envTwoFilesNoTracks cueP outP false ≠
      (false, "multi-file CUE (already split)") ∧
    should_process envTwoFilesNoTracks cueP outP false =
      (false, "no tracks or only 1 track") := by
  refine ⟨by decide, by decide, by decide⟩

/-- C4 (amended): for every cue sheet with more than one track marker, two
or more deduplicated FILE references give rejection with reason
"multi-file CUE (already split)", and zero references give rejection with
reason "no audio file referenced". -/
theorem should_process_ref_count_rejections (env : Env) (cue out_dir : List Char)
    (force : Bool) (h : 1 < count_cue_tracks env cue) :
    (2 ≤ (parse_cue_files env cue).length →
      should_process env cue out_dir force = (false, "multi-file CUE (already split)")) ∧
    ((parse_cue_files env cue).length = 0 →
      should_process env cue out_dir force = (false, "no audio file referenced")) := by
  have h1 : ¬ (count_cue_tracks env cue ≤ 1) := by omega
  constructor
  · intro h2
    have h3 : ¬ ((parse_cue_files env cue).length = 0) := by omega
    have h4 : (parse_cue_files env cue).length > 1 := by omega
    unfold should_process
    simp [h1, h3, h4]
  · intro h2
    unfold should_process
    simp [h1, h2]

/-- Witness for the amended C4, exercising both rejection branches at
concrete environments. -/
theorem should_process_ref_count_rejections_witness :
    should_process envTwoTracksTwoFiles cueP outP false =
      (false, "multi-file CUE (already split)") ∧
    should_process envTwoTracksNoFile cueP outP false =
      (false, "no audio file referenced") :=
  ⟨(should_process_ref_count_rejections envTwoTracksTwoFiles cueP outP false
      (by decide)).1 (by decide),
   (should_process_ref_count_rejections envTwoTracksNoFile cueP outP false
      (by decide)).2 (by decide)⟩

/-- C5: for a cue sheet with N > 1 track markers and exactly one existing
referenced audio file, force makes should_process accept without consulting
the directory listing; without force it rejects exactly when the audio-file
count in out_dir equals N, with the already-processed reason, and accepts
with a reason carrying N when the count is smaller. -/
theorem should_process_idempotency (env : Env) (cue out_dir r : List Char) (N : Nat)
    (htc : count_cue_tracks env cue = N) (hN : 1 < N)
    (hrefs : parse_cue_files env cue = [r]) (hex : env.pathExists r = true) :
    (should_process env cue out_dir true = (true, toString N ++ " tracks")) ∧
    ((should_process env cue out_dir false).1 = false ↔
      count_audio_files env out_dir = N) ∧
    (count_audio_files env out_dir = N →
      should_process env cue out_dir false =
        (false, "already processed (" ++ toString N ++ "/" ++ toString N ++ " tracks)")) ∧
    (count_audio_files env out_dir < N →
      should_process env cue out_dir false = (true, toString N ++ " tracks")) := by
  have h1 : ¬ (N ≤ 1) := by omega
  refine ⟨?_, ?_, ?_, ?_⟩
  · unfold should_process
    rw [htc, hrefs]
    simp [h1, find_audio_file, hex]
  · by_cases hc : count_audio_files env out_dir = N
    · unfold should_process
      rw [htc, hrefs]
      simp [h1, find_audio_file, hex, hc]
    · unfold should_process
      rw [htc, hrefs]
      simp [h1, find_audio_file, hex, hc]
  · intro hc
    unfold should_process
    rw [htc, hrefs]
    simp [h1, find_audio_file, hex, hc]
  · intro hc
    have hc2 : ¬ (count_audio_files env out_dir = N) := by omega
    unfold should_process
    rw [htc, hrefs]
    simp [h1, find_audio_file, hex, hc2]

/-- Witness for C5: two tracks, one existing referenced file, no existing
output files, no force; accepted with the track count in the reason. -/
theorem should_process_idempotency_witness :
    should_process envGood cueP outP false = (true, "2 tracks") :=
  ((should_process_idempotency envGood cueP outP ("/music/a.wav".toList) 2
      (by decide) (by decide) (by decide) (by decide)).2.2.2 (by decide)).trans (by decide)

/-! ## Artist and album extraction -/

theorem matchLit_cons_some {p : Char} {ps l r : List Char}
    (h : matchLit (p :: ps) l = some r) :
    ∃ c cs, l = c :: cs ∧ charIEq p c = true := by
  cases l with
  | nil => simp [matchLit] at h
  | cons c cs =>
    by_cases hc : charIEq p c
    · exact ⟨c, cs, rfl, hc⟩
    · simp [matchLit, hc] at h

/-- A line matched by PERFORMER_RE is not matched by TITLE_RE: after the
common leading-whitespace skip, the former requires a P and the latter a T. -/
theorem performer_title_disjoint {l g : List Char}
    (h : performerCapture l = some g) : titleCapture l = none := by
  unfold performerCapture keywordQuoted at h
  rcases hm : matchLit ("PERFORMER".toList) (l.dropWhile isPySpace) with _ | r1
  · rw [hm] at h
    simp at h
  · have hP : ("PERFORMER".toList) = 'P' :: ("ERFORMER".toList) := rfl
    rw [hP] at hm
    obtain ⟨c, cs, hl, hceq⟩ := matchLit_cons_some hm
    have hcp : c.toLower = 'p' := by
      have h2 : ('P').toLower = c.toLower := beq_iff_eq.mp hceq
      have h3 : ('P').toLower = 'p' := by decide
      rw [h3] at h2
      exact h2.symm
    unfold titleCapture keywordQuoted
    have hT : ("TITLE".toList) = 'T' :: ("ITLE".toList) := rfl
    rw [hT, hl]
    have hne : charIEq 'T' c = false := by
      unfold charIEq
      have : ('T').toLower = 't' := rfl
      rw [this, hcp]
      decide
    simp [matchLit, hne]

/-- Loop of parse_cue_artist_album, explained: scanning lines with current
captures a and b yields a where set, else the first stripped PERFORMER
capture before the first track marker, and likewise b or the first stripped
TITLE capture. -/
theorem paaLoop_spec (lines : List (List Char)) (a b : Option (List Char)) :
    paaLoop lines a b =
      (a.or (((lines.takeWhile (fun l => !(trackMatch l))).findSome?
          performerCapture).map pyStrip),
       b.or (((lines.takeWhile (fun l => !(trackMatch l))).findSome?
          titleCapture).map pyStrip)) := by
  induction lines generalizing a b with
  | nil => cases a <;> cases b <;> simp [paaLoop, Option.or]
  | cons line rest ih =>
    by_cases ht : trackMatch line
    · cases a <;> cases b <;> simp [paaLoop, ht, Option.or]
    · rw [List.takeWhile_cons]
      simp only [ht, Bool.not_false, if_pos]
      cases a with
      | none =>
        rcases hp : performerCapture line with _ | g
        · rcases hb : b with _ | y
          · rcases htl : titleCapture line with _ | g2
            · simpa [paaLoop, ht, hp, htl, List.findSome?_cons, Option.or] using
                ih none none
            · simpa [paaLoop, ht, hp, htl, List.findSome?_cons, Option.or] using
                ih none (some (pyStrip g2))
          · simpa [paaLoop, ht, hp, List.findSome?_cons, Option.or] using
              ih none (some y)
        · have htl : titleCapture line = none := performer_title_disjoint hp
          simpa [paaLoop, ht, hp, htl, List.findSome?_cons, Option.or] using
            ih (some (pyStrip g)) b
      | some x =>
        rcases hb : b with _ | y
        · rcases htl : titleCapture line with _ | g2
          · simpa [paaLoop, ht, htl, List.findSome?_cons, Option.or] using
              ih (some x) none
          · simpa [paaLoop, ht, htl, List.findSome?_cons, Option.or] using
              ih (some x) (some (pyStrip g2))
        · simpa [paaLoop, ht, List.findSome?_cons, Option.or] using
            ih (some x) (some y)

/-- C2: parse_cue_artist_album scans top to bottom, stops at the first line
matching the track-marker pattern, and returns the first PERFORMER capture
and the first TITLE capture occurring strictly before that line, none for
whichever is absent; in particular a PERFORMER line after the first track
marker is never captured. -/
theorem parse_cue_artist_album_spec (env : Env) (cue : List Char)
    (lines : List (List Char)) (h : env.readLines cue = some lines) :
    parse_cue_artist_album env cue =
      (((lines.takeWhile (fun l => !(trackMatch l))).findSome? performerCapture).map pyStrip,
       ((lines.takeWhile (fun l => !(trackMatch l))).findSome? titleCapture).map pyStrip) := by
  unfold parse_cue_artist_album
  rw [h]
  simpa [Option.or] using paaLoop_spec lines none none

/-- Witness for C2 at the spec's worked example: the PERFORMER line after
the first track marker is not captured. -/
theorem parse_cue_artist_album_spec_witness :
    parse_cue_artist_album envGood cueP =
      (some ("Test Artist".toList), some ("Test Album".toList)) :=
  (parse_cue_artist_album_spec envGood cueP
      [lnPerf, lnTitle, lnFileA, lnTrk1, lnTrk2, lnPerfOther] rfl).trans (by decide)

/-! ## FILE reference extraction -/

theorem mem_dedupFrom {x : List Char} :
    ∀ {l seen : List (List Char)}, x ∈ dedupFrom seen l ↔ x ∈ l ∧ x ∉ seen := by
  intro l
  induction l with
  | nil => intro seen; simp [dedupFrom]
  | cons y ys ih =>
    intro seen
    by_cases hy : y ∈ seen
    · rw [dedupFrom, if_pos hy, ih]
      constructor
      · rintro ⟨hx, hs⟩
        exact ⟨List.mem_cons_of_mem _ hx, hs⟩
      · rintro ⟨hx, hs⟩
        rcases List.mem_cons.mp hx with hx | hx
        · exact absurd (hx ▸ hy) hs
        · exact ⟨hx, hs⟩
    · rw [dedupFrom, if_neg hy]
      constructor
      · intro hx
        rcases List.mem_cons.mp hx with hx | hx
        · exact ⟨hx ▸ List.mem_cons_self y ys, hx ▸ hy⟩
        · rcases ih.mp hx with ⟨h1, h2⟩
          refine ⟨List.mem_cons_of_mem _ h1, fun hs => h2 (List.mem_cons_of_mem _ hs)⟩
      · rintro ⟨hx, hs⟩
        rcases List.mem_cons.mp hx with hx | hx
        · exact hx ▸ List.mem_cons_self _ _
        · by_cases hxy : x = y
          · exact hxy ▸ List.mem_cons_self _ _
          · refine List.mem_cons_of_mem _ (ih.mpr ⟨hx, fun hs2 => ?_⟩)
            rcases List.mem_cons.mp hs2 with h | h
            · exact hxy h
            · exact hs h

theorem nodup_dedupFrom : ∀ (l seen : List (List Char)), (dedupFrom seen l).Nodup := by
  intro l
  induction l with
  | nil => intro seen; simp [dedupFrom]
  | cons y ys ih =>
    intro seen
    by_cases hy : y ∈ seen
    · rw [dedupFrom, if_pos hy]
      exact ih seen
    · rw [dedupFrom, if_neg hy]
      refine List.nodup_cons.mpr ⟨fun hmem => ?_, ih (y :: seen)⟩
      exact (mem_dedupFrom.mp hmem).2 (List.mem_cons_self _ _)

theorem sublist_dedupFrom : ∀ (l seen : List (List Char)), (dedupFrom seen l).Sublist l := by
  intro l
  induction l with
  | nil => intro seen; simp [dedupFrom]
  | cons y ys ih =>
    intro seen
    by_cases hy : y ∈ seen
    · rw [dedupFrom, if_pos hy]
      exact (ih seen).cons y
    · rw [dedupFrom, if_neg hy]
      exact (ih (y :: seen)).cons₂ y

/-- Loop of parse_cue_files, explained: it appends to the accumulated
output the first-seen deduplication of the resolved FILE references of the
remaining lines, excluding the seen set. -/
theorem pcfLoop_spec (env : Env) (par : List Char) :
    ∀ (lines seen refs : List (List Char)),
    pcfLoop env par lines seen refs =
      refs ++ dedupFrom seen (cueRefs env par lines) := by
  intro lines
  induction lines with
  | nil => intro seen refs; simp [pcfLoop, cueRefs, dedupFrom]
  | cons line rest ih =>
    intro seen refs
    rcases hf : fileCapture line with _ | ⟨fname, ftype⟩
    · rw [pcfLoop, hf]
      rw [ih seen refs]
      simp [cueRefs, List.filterMap_cons, hf]
    · by_cases hseen : resolveRef env par fname ∈ seen
      · rw [pcfLoop, hf]
        simp only [hseen, if_pos]
        rw [ih seen refs]
        simp [cueRefs, List.filterMap_cons, hf, dedupFrom, hseen]
      · rw [pcfLoop, hf]
        simp only [hseen, if_neg, not_false_iff]
        rw [ih (resolveRef env par fname :: seen) (refs ++ [resolveRef env par fname])]
        simp [cueRefs, List.filterMap_cons, hf, dedupFrom, hseen]

/-- C8 counterexample: two FILE lines naming the same file through distinct
absolute strings are not deduplicated, because absolute names are never
resolved; both entries are returned even though their canonical resolved
paths coincide. -/
theorem parse_cue_files_dedup_counterexample :
    parse_cue_files envAbsDup cueP = ["/x/../b".toList, "/b".toList] ∧
    posixResolve ("/x/../b".toList) = posixResolve ("/b".toList) ∧
    ("/x/../b".toList) ≠ ("/b".toList) := by
  refine ⟨by decide, by decide, by decide⟩

/-- C8 (amended): parse_cue_files returns the FILE-line references, each
non-absolute name resolved relative to the cue sheet's containing directory
and absolute names kept as constructed, deduplicated by the string form of
the computed path with first-seen order preserved; the result may be empty. -/
theorem parse_cue_files_spec (env : Env) (cue : List Char) (lines : List (List Char))
    (h : env.readLines cue = some lines) :
    parse_cue_files env cue = dedupFrom [] (cueRefs env (env.parentOf cue) lines) ∧
    (parse_cue_files env cue).Nodup ∧
    (parse_cue_files env cue).Sublist (cueRefs env (env.parentOf cue) lines) ∧
    (∀ r, r ∈ parse_cue_files env cue ↔ r ∈ cueRefs env (env.parentOf cue) lines) := by
  have he : parse_cue_files env cue = dedupFrom [] (cueRefs env (env.parentOf cue) lines) := by
    unfold parse_cue_files
    rw [h]
    simpa using pcfLoop_spec env (env.parentOf cue) lines [] []
  refine ⟨he, ?_, ?_, ?_⟩
  · rw [he]
    exact nodup_dedupFrom _ _
  · rw [he]
    exact sublist_dedupFrom _ _
  · intro r
    rw [he, mem_dedupFrom]
    simp

/-- Witness for the amended C8: a duplicated relative FILE line collapses
to one resolved entry, order preserved. -/
theorem parse_cue_files_spec_witness :
    parse_cue_files (envFrom (some [lnFileA, lnFileA, lnFileB]) false none) cueP =
      ["/music/a.wav".toList, "/music/b.wav".toList] :=
  ((parse_cue_files_spec (envFrom (some [lnFileA, lnFileA, lnFileB]) false none) cueP
      [lnFileA, lnFileA, lnFileB] rfl).1).trans (by decide)

/-! ## Error handling of the parsing functions -/

/-- C9: when reading the cue sheet fails, parse_cue_files returns the empty
list, parse_cue_artist_album returns (none, none), and count_cue_tracks
returns 0.  The three functions are total, so no exception escapes them. -/
theorem parsing_on_read_failure (env : Env) (cue : List Char)
    (h : env.readLines cue = none) :
    parse_cue_files env cue = [] ∧
    parse_cue_artist_album env cue = (none, none) ∧
    count_cue_tracks env cue = 0 := by
  refine ⟨?_, ?_, ?_⟩ <;> simp [parse_cue_files, parse_cue_artist_album, count_cue_tracks, h]

/-- Witness for C9 at a concrete environment whose reads fail. -/
theorem parsing_on_read_failure_witness :
    parse_cue_files envNoRead cueP = [] ∧
    parse_cue_artist_album envNoRead cueP = (none, none) ∧
    count_cue_tracks envNoRead cueP = 0 :=
  parsing_on_read_failure envNoRead cueP rfl

/-! ## Text decoder: the lossy fallback is unreachable -/

/-- The encoding-trial loop returns from within the loop whenever some tried
codec decodes strictly with no replacement character. -/
theorem tryCodecs_some {raw : List Nat} :
    ∀ (ds : List Codec), (∃ d ∈ ds, ∃ t, d raw = some t ∧ t.contains 0xFFFD = false) →
    ∃ u, tryCodecs ds raw = some u ∧ u.contains 0xFFFD = false := by
  intro ds
  induction ds with
  | nil =>
    rintro ⟨d, hd, _⟩
    simp at hd
  | cons d0 ds ih =>
    rintro ⟨d, hd, t, hdt, hfl⟩
    rcases h0 : d0 raw with _ | t0
    · rw [tryCodecs, h0]
      apply ih
      rcases List.mem_cons.mp hd with rfl | hd2
      · rw [h0] at hdt
        exact absurd hdt (by simp)
      · exact ⟨d, hd2, t, hdt, hfl⟩
    · rw [tryCodecs, h0]
      by_cases hc : t0.contains 0xFFFD
      · simp only [hc, if_true]
        apply ih
        rcases List.mem_cons.mp hd with rfl | hd2
        · rw [h0] at hdt
          have ht : t = t0 := by
            injection hdt with h
            exact h.symm
          rw [ht] at hfl
          rw [hfl] at hc
          cases hc
        · exact ⟨d, hd2, t, hdt, hfl⟩
      · refine ⟨t0, ?_, by simpa using hc⟩
        have hcf : t0.contains 0xFFFD = false := by simpa using hc
        simp [hcf]
        intro hmem
        exact absurd hmem (by simpa using hcf)

/-- C10: for every byte sequence, strict latin-1 decoding (the last codec
tried) is total and replacement-free, so read_text_guessing returns a
replacement-free result from within the encoding-trial loop and the lossy
fallback branch is unreachable. -/
theorem read_text_guessing_no_fallback (raw : List Nat) (hb : ∀ b ∈ raw, b < 256) :
    latin1Decode raw = some raw ∧
    raw.contains 0xFFFD = false ∧
    ∃ t, tryCodecs codecList raw = some t ∧ t.contains 0xFFFD = false ∧
      read_text_guessing raw = t := by
  have hfl : raw.contains 0xFFFD = false := by
    by_contra hcon
    have h1 : raw.contains 0xFFFD = true := by
      cases h : raw.contains 0xFFFD
      · exact absurd h hcon
      · rfl
    have hmem : (0xFFFD : Nat) ∈ raw := List.elem_iff.mp h1
    have := hb _ hmem
    omega
  refine ⟨rfl, hfl, ?_⟩
  have hmem : latin1Decode ∈ codecList := by
    simp [codecList]
  obtain ⟨u, hu, hufl⟩ := tryCodecs_some codecList ⟨latin1Decode, hmem, raw, rfl, hfl⟩
  refine ⟨u, hu, hufl, ?_⟩
  unfold read_text_guessing
  rw [hu]

/-- Witness for C10 at a concrete byte sequence that every earlier codec
rejects, decoded by cp1251 within the loop. -/
theorem read_text_guessing_no_fallback_witness :
    latin1Decode [0xC6] = some [0xC6] ∧
    ([0xC6] : List Nat).contains 0xFFFD = false ∧
    ∃ t, tryCodecs codecList [0xC6] = some t ∧ t.contains 0xFFFD = false ∧
      read_text_guessing [0xC6] = t :=
  read_text_guessing_no_fallback [0xC6] (by decide)

/-! ## Name sanitizer: character-level lemmas -/

theorem toNat_ofNat_of_valid {n : Nat} (h : n.isValidChar) : (Char.ofNat n).toNat = n := by
  rw [Char.ofNat, dif_pos h]
  simp [Char.ofNatAux, Char.toNat, UInt32.toNat]

theorem char_le_iff_toNat {a b : Char} : a ≤ b ↔ a.toNat ≤ b.toNat := by
  constructor
  · intro h
    exact h
  · intro h
    exact h

/-- The safe character class is closed under Python lower on its members. -/
theorem isSafeChar_toLower {c : Char} (h : isSafeChar c = true) :
    isSafeChar c.toLower = true := by
  simp only [Char.toLower]
  split
  · next hn =>
    obtain ⟨h1, h2⟩ := hn
    have hv : (c.toNat + 32).isValidChar := by
      left
      omega
    have ht : (Char.ofNat (c.toNat + 32)).toNat = c.toNat + 32 := toNat_ofNat_of_valid hv
    simp only [isSafeChar, Bool.or_eq_true, Bool.and_eq_true, decide_eq_true_eq]
    refine Or.inr ⟨?_, ?_⟩
    · rw [char_le_iff_toNat, ht]
      have ha : ('a').toNat = 97 := rfl
      omega
    · rw [char_le_iff_toNat, ht]
      have hz : ('z').toNat = 122 := rfl
      omega
  · exact h

/-- A getD read from an all-safe list with a safe default is safe. -/
theorem getD_safe {res : List Char} (h : ∀ c ∈ res, isSafeChar c = true)
    (i : Nat) (d : Char) (hd : isSafeChar d = true) :
    isSafeChar (res.getD i d) = true := by
  rw [List.getD_eq_getElem?_getD]
  rcases hq : res[i]? with _ | a
  · exact hd
  · exact h a (List.getElem?_mem hq)

/-- Every table entry is at most two characters long and consists of safe
characters. -/
theorem latin_map_entries :
    (LATIN_MAP.all fun o =>
      o.elim true (fun s => s.length ≤ 2 && s.toList.all isSafeChar)) = true := by
  decide

/-- Facts about a successful table lookup, derived from latin_map_entries. -/
theorem latinLookup_facts {i : Nat} {m : List Char} (h : latinLookup i = some m) :
    m.length ≤ 2 ∧ ∀ c ∈ m, isSafeChar c = true := by
  unfold latinLookup at h
  rcases hq : LATIN_MAP.getD i none with _ | s
  · rw [hq] at h
    exact absurd h (by simp)
  · rw [hq] at h
    have hsm : s.toList = m := by
      simpa using h
    have hmem : (some s) ∈ LATIN_MAP := by
      rw [List.getD_eq_getElem?_getD] at hq
      rcases hg : LATIN_MAP[i]? with _ | o
      · rw [hg] at hq
        exact absurd hq (by simp)
      · rw [hg] at hq
        simp only [Option.getD_some] at hq
        exact hq ▸ List.getElem?_mem hg
    have hfacts := (List.all_eq_true.mp latin_map_entries) _ hmem
    simp only [Option.elim, Bool.and_eq_true, decide_eq_true_eq] at hfacts
    obtain ⟨hlen, hall⟩ := hfacts
    refine ⟨?_, ?_⟩
    · rw [← hsm]
      simpa using hlen
    · intro c hc
      exact (List.all_eq_true.mp hall) c (by rw [hsm]; exact hc)

/-- A table entry required to have an uppercase second character is an
exactly-two-character entry. -/
theorem sndIsUpper_two {m : List Char} (hlen : m.length ≤ 2) (h : sndIsUpper m = true) :
    ∃ m0 m1, m = [m0, m1] ∧ m1.isUpper = true := by
  match m with
  | [] => simp [sndIsUpper] at h
  | [a] => simp [sndIsUpper] at h
  | a :: b :: rest =>
    have hr : rest = [] := by
      cases rest with
      | nil => rfl
      | cons x xs => simp at hlen
    subst hr
    exact ⟨a, b, rfl, h⟩

/-! ## Name sanitizer: identity on the safe subset -/

/-- Emission passes safe characters through and records nothing. -/
theorem emit_safe_id : ∀ (value res : List Char) (gs : List Nat),
    (∀ c ∈ value, isSafeChar c = true) →
    value.foldl emitStep (res, gs) = (res ++ value, gs) := by
  intro value
  induction value with
  | nil => intro res gs _; simp
  | cons c cs ih =>
    intro res gs h
    have hc : isSafeChar c = true := h c (List.mem_cons_self _ _)
    have hstep : emitStep (res, gs) c = (res ++ [c], gs) := by
      unfold emitStep
      simp [hc]
    rw [List.foldl_cons, hstep, ih (res ++ [c]) gs (fun x hx => h x (List.mem_cons_of_mem _ hx))]
    simp

/-- C7: sanitize_name is the identity on strings consisting only of ASCII
letters, digits, and spaces. -/
theorem sanitize_name_id (value : List Char) (h : ∀ c ∈ value, isSafeChar c = true) :
    sanitize_name value = value := by
  have hne : value ≠ "( )".toList := by
    intro he
    have hmem : '(' ∈ value := by
      rw [he]
      decide
    have := h '(' hmem
    simp [isSafeChar] at this
  unfold sanitize_name
  rw [if_neg hne]
  rw [emit_safe_id value [] [] h]
  simp [applyGuessed]

/-- Witness for C7 at a concrete safe string. -/
theorem sanitize_name_id_witness :
    sanitize_name ("Abc 123".toList) = "Abc 123".toList :=
  sanitize_name_id ("Abc 123".toList) (by decide)

/-! ## Name sanitizer: the output is ASCII-safe -/

/-- One emission step preserves all-safety of the output. -/
theorem emitStep_safe {res : List Char} {gs : List Nat} (ch : Char)
    (h : ∀ c ∈ res, isSafeChar c = true) :
    ∀ c ∈ (emitStep (res, gs) ch).1, isSafeChar c = true := by
  unfold emitStep
  by_cases h1 : isSafeChar ch
  · simp only [h1, if_true]
    intro c hc
    rcases List.mem_append.mp hc with hc | hc
    · exact h c hc
    · rw [List.mem_singleton.mp hc]
      exact h1
  · simp only [h1, if_false]
    by_cases h2 : ch == '\t'
    · simp only [h2, if_true]
      intro c hc
      rcases List.mem_append.mp hc with hc | hc
      · exact h c hc
      · rw [List.mem_singleton.mp hc]
        decide
    · simp only [h2, if_false]
      by_cases h3 : LATIN_MAP_BEGIN ≤ ch.toNat && ch.toNat < LATIN_MAP_END
      · simp only [h3, if_true]
        rcases hm : latinLookup (ch.toNat - LATIN_MAP_BEGIN) with _ | m
        · simpa using h
        · have hsafe := (latinLookup_facts hm).2
          by_cases h4 : sndIsUpper m
          · simp only [h4, if_true]
            intro c hc
            rcases List.mem_append.mp hc with hc | hc
            · exact h c hc
            · exact hsafe c hc
          · simp only [h4, if_false]
            intro c hc
            rcases List.mem_append.mp hc with hc | hc
            · exact h c hc
            · exact hsafe c hc
      · simp only [h3, if_false]
        simpa using h

/-- Emission from an all-safe accumulator yields an all-safe output. -/
theorem emit_all_safe : ∀ (value res : List Char) (gs : List Nat),
    (∀ c ∈ res, isSafeChar c = true) →
    ∀ c ∈ (value.foldl emitStep (res, gs)).1, isSafeChar c = true := by
  intro value
  induction value with
  | nil => intro res gs h; simpa using h
  | cons x xs ih =>
    intro res gs h
    rw [List.foldl_cons]
    have hstep := @emitStep_safe res gs x h
    rcases hst : emitStep (res, gs) x with ⟨res2, gs2⟩
    rw [hst] at hstep
    exact ih res2 gs2 hstep

/-- One post-pass step preserves all-safety. -/
theorem patchStep_safe {res : List Char} (idx : Nat)
    (h : ∀ c ∈ res, isSafeChar c = true) :
    ∀ c ∈ patchStep res idx, isSafeChar c = true := by
  unfold patchStep
  split
  · intro c hc
    rcases List.mem_or_eq_of_mem_set hc with hc | hc
    · exact h c hc
    · rw [hc]
      exact isSafeChar_toLower (getD_safe h idx 'A' (by decide))
  · exact h

/-- The post-pass preserves all-safety. -/
theorem applyGuessed_safe : ∀ (gs : List Nat) (res : List Char),
    (∀ c ∈ res, isSafeChar c = true) →
    ∀ c ∈ applyGuessed gs res, isSafeChar c = true := by
  intro gs
  induction gs with
  | nil => intro res h; simpa [applyGuessed] using h
  | cons i0 rest ih =>
    intro res h
    show ∀ c ∈ (i0 :: rest).foldl patchStep res, isSafeChar c = true
    rw [List.foldl_cons]
    exact ih (patchStep res i0) (patchStep_safe i0 h)

/-- C6: every character of the sanitizer's output is an ASCII letter, an
ASCII digit, or a space, including for the special-cased input. -/
theorem sanitize_name_ascii_safe (value : List Char) :
    ∀ c ∈ sanitize_name value, isSafeChar c = true := by
  unfold sanitize_name
  by_cases hv : value = "( )".toList
  · rw [if_pos hv]
    decide
  · rw [if_neg hv]
    exact applyGuessed_safe _ _ (emit_all_safe value [] [] (by intro c hc; cases hc))

/-- Witness for C6: the accented input is transliterated and the resulting
character is safe. -/
theorem sanitize_name_ascii_safe_witness : isSafeChar 'e' = true :=
  sanitize_name_ascii_safe ("é".toList) 'e' (by decide)

/-! ## Name sanitizer: the capitalization post-pass

Invariant over emission: the recorded guessed indexes are strictly
increasing with gaps of at least two (each is the second character of a
two-character expansion), in range, and point at uppercase characters. -/

theorem emitStep_invariant {res : List Char} {gs : List Nat} (ch : Char)
    (hp : List.Pairwise (fun a b => a + 2 ≤ b) gs)
    (hb : ∀ i ∈ gs, i < res.length ∧ (res.getD i 'A').isUpper = true) :
    List.Pairwise (fun a b => a + 2 ≤ b) (emitStep (res, gs) ch).2 ∧
    ∀ i ∈ (emitStep (res, gs) ch).2,
      i < (emitStep (res, gs) ch).1.length ∧
      ((emitStep (res, gs) ch).1.getD i 'A').isUpper = true := by
  have happend : ∀ (t : List Char), ∀ i ∈ gs,
      i < (res ++ t).length ∧ ((res ++ t).getD i 'A').isUpper = true := by
    intro t i hi
    obtain ⟨h1, h2⟩ := hb i hi
    refine ⟨by rw [List.length_append]; omega, ?_⟩
    rw [getD_append_left _ _ _ _ h1]
    exact h2
  by_cases h1 : isSafeChar ch
  · have hstep : emitStep (res, gs) ch = (res ++ [ch], gs) := by
      unfold emitStep
      simp [h1]
    rw [hstep]
    exact ⟨hp, happend [ch]⟩
  · by_cases h2 : ch == '\t'
    · have hstep : emitStep (res, gs) ch = (res ++ [' '], gs) := by
        unfold emitStep
        simp [h1, h2]
      rw [hstep]
      exact ⟨hp, happend [' ']⟩
    · by_cases h3 : LATIN_MAP_BEGIN ≤ ch.toNat && ch.toNat < LATIN_MAP_END
      · rcases hm : latinLookup (ch.toNat - LATIN_MAP_BEGIN) with _ | m
        · have hstep : emitStep (res, gs) ch = (res, gs) := by
            unfold emitStep
            simp [h1, h2, h3, hm]
          rw [hstep]
          exact ⟨hp, hb⟩
        · obtain ⟨hmlen, _⟩ := latinLookup_facts hm
          by_cases h4 : sndIsUpper m
          · obtain ⟨m0, m1, hm2, hup⟩ := sndIsUpper_two hmlen h4
            subst hm2
            have hstep : emitStep (res, gs) ch =
                (res ++ [m0, m1], gs ++ [(res ++ [m0, m1]).length - 1]) := by
              unfold emitStep
              simp [h1, h2, h3, hm, h4]
            have hidx : (res ++ [m0, m1]).length - 1 = res.length + 1 := by
              rw [List.length_append]
              simp
            rw [hstep, hidx]
            constructor
            · rw [List.pairwise_append]
              refine ⟨hp, by simp, ?_⟩
              intro a ha b hbm
              have h5 := (hb a ha).1
              have h6 : b = res.length + 1 := List.mem_singleton.mp hbm
              omega
            · intro i hi
              rcases List.mem_append.mp hi with hi | hi
              · obtain ⟨h5, h6⟩ := happend [m0, m1] i hi
                exact ⟨h5, h6⟩
              · have h7 : i = res.length + 1 := List.mem_singleton.mp hi
                subst h7
                refine ⟨by rw [List.length_append]; simp, ?_⟩
                rw [getD_append_add res [m0, m1] 1 'A']
                simpa using hup
          · have hstep : emitStep (res, gs) ch = (res ++ m, gs) := by
              unfold emitStep
              simp [h1, h2, h3, hm, h4]
            rw [hstep]
            exact ⟨hp, happend m⟩
      · have hstep : emitStep (res, gs) ch = (res, gs) := by
          unfold emitStep
          simp [h1, h2, h3]
        rw [hstep]
        exact ⟨hp, hb⟩

theorem emit_invariant : ∀ (value res : List Char) (gs : List Nat),
    List.Pairwise (fun a b => a + 2 ≤ b) gs →
    (∀ i ∈ gs, i < res.length ∧ (res.getD i 'A').isUpper = true) →
    List.Pairwise (fun a b => a + 2 ≤ b) (value.foldl emitStep (res, gs)).2 ∧
    ∀ i ∈ (value.foldl emitStep (res, gs)).2,
      i < (value.foldl emitStep (res, gs)).1.length ∧
      ((value.foldl emitStep (res, gs)).1.getD i 'A').isUpper = true := by
  intro value
  induction value with
  | nil => intro res gs hp hb; exact ⟨hp, hb⟩
  | cons x xs ih =>
    intro res gs hp hb
    rw [List.foldl_cons]
    have hstep := emitStep_invariant x hp hb
    rcases hst : emitStep (res, gs) x with ⟨res2, gs2⟩
    rw [hst] at hstep
    exact ih res2 gs2 hstep.1 hstep.2

theorem applyGuessed_cons (i0 : Nat) (rest : List Nat) (res : List Char) :
    applyGuessed (i0 :: rest) res = applyGuessed rest (patchStep res i0) := rfl

theorem patchStep_length (res : List Char) (idx : Nat) :
    (patchStep res idx).length = res.length := by
  unfold patchStep
  split
  · exact List.length_set res idx _
  · rfl

theorem applyGuessed_length : ∀ (gs : List Nat) (res : List Char),
    (applyGuessed gs res).length = res.length := by
  intro gs
  induction gs with
  | nil => intro res; rfl
  | cons i0 rest ih =>
    intro res
    rw [applyGuessed_cons, ih (patchStep res i0), patchStep_length]

theorem patchStep_getD_ne (res : List Char) (idx j : Nat) (d : Char) (h : idx ≠ j) :
    (patchStep res idx).getD j d = res.getD j d := by
  unfold patchStep
  split
  · exact getD_set_ne _ _ _ _ _ h
  · rfl

theorem applyGuessed_getD_not_mem : ∀ (gs : List Nat) (res : List Char) (j : Nat) (d : Char),
    j ∉ gs → (applyGuessed gs res).getD j d = res.getD j d := by
  intro gs
  induction gs with
  | nil => intro res j d _; rfl
  | cons i0 rest ih =>
    intro res j d hj
    have h1 : j ∉ rest := fun hr => hj (List.mem_cons_of_mem _ hr)
    have h2 : i0 ≠ j := fun he => hj (he ▸ List.mem_cons_self _ _)
    rw [applyGuessed_cons, ih (patchStep res i0) j d h1, patchStep_getD_ne _ _ _ _ h2]

/-- In a list with pairwise gaps of at least two, no element has its
successor in the list. -/
theorem pairwise_gap_not_succ : ∀ (gs : List Nat),
    List.Pairwise (fun a b => a + 2 ≤ b) gs →
    ∀ idx, idx ∈ gs → idx + 1 ∈ gs → False := by
  intro gs
  induction gs with
  | nil => intro _ idx h1; cases h1
  | cons g rest ih =>
    intro hp idx h1 h2
    obtain ⟨hg, hrest⟩ := List.pairwise_cons.mp hp
    rcases List.mem_cons.mp h1 with rfl | h1r
    · rcases List.mem_cons.mp h2 with heq | h2r
      · omega
      · have := hg _ h2r
        omega
    · rcases List.mem_cons.mp h2 with heq | h2r
      · have := hg _ h1r
        omega
      · exact ih hrest idx h1r h2r

/-- The sequential post-pass acts on each recorded index as a simultaneous
update decided by the pre-pass values. -/
theorem applyGuessed_getD_mem : ∀ (gs : List Nat) (res : List Char) (idx : Nat),
    List.Pairwise (fun a b => a + 2 ≤ b) gs →
    (∀ i ∈ gs, i < res.length) →
    idx ∈ gs →
    (applyGuessed gs res).getD idx 'A' =
      (if idx + 1 < res.length ∧ (res.getD (idx + 1) 'A').isUpper = false
       then (res.getD idx 'A').toLower else res.getD idx 'A') := by
  intro gs
  induction gs with
  | nil => intro res idx _ _ h; cases h
  | cons i0 rest ih =>
    intro res idx hp hb hmem
    obtain ⟨hg, hrest⟩ := List.pairwise_cons.mp hp
    rcases List.mem_cons.mp hmem with rfl | hmem2
    · have hnotin : idx ∉ rest := by
        intro hr
        have := hg _ hr
        omega
      have hlen : idx < res.length := hb idx (List.mem_cons_self _ _)
      rw [applyGuessed_cons, applyGuessed_getD_not_mem rest _ idx 'A' hnotin]
      unfold patchStep
      by_cases hcond : (idx != res.length - 1 && !((res.getD (idx + 1) 'A').isUpper)) = true
      · rw [if_pos hcond, getD_set_self _ _ _ _ hlen]
        have hc1 : idx ≠ res.length - 1 ∧ (res.getD (idx + 1) 'A').isUpper = false := by
          simpa [bne_iff_ne, Bool.not_eq_true'] using hcond
        rw [if_pos ⟨by omega, hc1.2⟩]
      · rw [if_neg hcond]
        have hnc : ¬ (idx + 1 < res.length ∧ (res.getD (idx + 1) 'A').isUpper = false) := by
          rintro ⟨ha, hbu⟩
          apply hcond
          simp only [bne_iff_ne, Bool.and_eq_true, Bool.not_eq_true', decide_eq_true_eq]
          exact ⟨by omega, hbu⟩
        rw [if_neg hnc]
    · have hgap := hg _ hmem2
      have hne1 : i0 ≠ idx := by omega
      have hne2 : i0 ≠ idx + 1 := by omega
      have hb2 : ∀ i ∈ rest, i < (patchStep res i0).length := by
        intro i hi
        rw [patchStep_length]
        exact hb i (List.mem_cons_of_mem _ hi)
      rw [applyGuessed_cons, ih (patchStep res i0) idx hrest hb2 hmem2,
        patchStep_length, patchStep_getD_ne _ _ _ _ hne1, patchStep_getD_ne _ _ _ _ hne2]

/-- C1: for every recorded two-letter expansion whose second letter is
uppercase, after the full output is assembled the second letter is
lowercased exactly when a character follows it in the final output and that
character is not uppercase; all other positions are emitted unchanged. -/
theorem sanitize_guessed_postpass (value : List Char) (hne : value ≠ "( )".toList) :
    (∀ idx ∈ (value.foldl emitStep ([], [])).2,
      ((value.foldl emitStep ([], [])).1.getD idx 'A').isUpper = true ∧
      (sanitize_name value).length = (value.foldl emitStep ([], [])).1.length ∧
      (sanitize_name value).getD (idx + 1) 'A' =
        (value.foldl emitStep ([], [])).1.getD (idx + 1) 'A' ∧
      (sanitize_name value).getD idx 'A' =
        (if idx + 1 < (sanitize_name value).length ∧
            ((sanitize_name value).getD (idx + 1) 'A').isUpper = false
         then ((value.foldl emitStep ([], [])).1.getD idx 'A').toLower
         else (value.foldl emitStep ([], [])).1.getD idx 'A')) ∧
    (∀ j, j ∉ (value.foldl emitStep ([], [])).2 →
      (sanitize_name value).getD j 'A' = (value.foldl emitStep ([], [])).1.getD j 'A') := by
  have hs : sanitize_name value =
      applyGuessed (value.foldl emitStep ([], [])).2 (value.foldl emitStep ([], [])).1 := by
    unfold sanitize_name
    rw [if_neg hne]
  obtain ⟨hp, hb⟩ :=
    emit_invariant value [] [] List.Pairwise.nil (by intro i hi; cases hi)
  constructor
  · intro idx hidx
    obtain ⟨hlen, hup⟩ := hb idx hidx
    have hnotsucc : idx + 1 ∉ (value.foldl emitStep ([], [])).2 :=
      fun h2 => pairwise_gap_not_succ _ hp idx hidx h2
    have hpres : (sanitize_name value).getD (idx + 1) 'A' =
        (value.foldl emitStep ([], [])).1.getD (idx + 1) 'A' := by
      rw [hs]
      exact applyGuessed_getD_not_mem _ _ _ _ hnotsucc
    refine ⟨hup, ?_, hpres, ?_⟩
    · rw [hs]
      exact applyGuessed_length _ _
    · rw [hpres, hs, applyGuessed_length]
      exact applyGuessed_getD_mem _ _ _ hp (fun i hi => (hb i hi).1) hidx
  · intro j hj
    rw [hs]
    exact applyGuessed_getD_not_mem _ _ _ _ hj

/-- Witness for C1 at a concrete input: the digraph AE of the input is
followed by a lowercase character, so its second letter is lowered. -/
theorem sanitize_guessed_postpass_witness :
    (("Æb".toList.foldl emitStep ([], [])).1.getD 1 'A').isUpper = true ∧
    (sanitize_name ("Æb".toList)).length = ("Æb".toList.foldl emitStep ([], [])).1.length ∧
    (sanitize_name ("Æb".toList)).getD (1 + 1) 'A' =
      ("Æb".toList.foldl emitStep ([], [])).1.getD (1 + 1) 'A' ∧
    (sanitize_name ("Æb".toList)).getD 1 'A' =
      (if 1 + 1 < (sanitize_name ("Æb".toList)).length ∧
          ((sanitize_name ("Æb".toList)).getD (1 + 1) 'A').isUpper = false
       then (("Æb".toList.foldl emitStep ([], [])).1.getD 1 'A').toLower
       else ("Æb".toList.foldl emitStep ([], [])).1.getD 1 'A') :=
  (sanitize_guessed_postpass ("Æb".toList) (by decide)).1 1 (by decide)

end CueSplit
